import Mathlib

/-!
Verification of the caching layer in
`packages/duckdb-server-rust/src/cache.rs`.

The file embeds the two public operations of that module:

* `get_key` — derives a cache key from a `sql` string and a `command`
  string by feeding both to a SHA-256 hasher and rendering the digest as
  lowercase hex, followed by `.` and the raw command;
* `retrieve` — probes an LRU cache for the derived key, returning the
  cached bytes on a hit, and otherwise runs the supplied computation,
  optionally persisting a successful result.

Machine integers are modelled as `Nat` with explicit reduction modulo
`2 ^ 32`; byte strings are `List Nat` of values below 256.  The
`lru::LruCache` collaborator is modelled as a recency-ordered association
list (most recently used first) together with its capacity, matching the
documented behaviour of the `lru` crate: `get` moves a present entry to
the front, `put` inserts at the front and evicts the last (least recently
used) entry when the cache is full.
-/

/-! ## SHA-256 over byte lists -/

/-- Reduce modulo `2 ^ 32`: the result of every 32-bit machine operation. -/
def w32 (n : Nat) : Nat := n % 4294967296

/-- Right rotation of a 32-bit word. -/
def rotr (n x : Nat) : Nat := w32 ((x >>> n) ||| (x <<< (32 - n)))

/-- The `Ch` function of FIPS 180-4. -/
def chF (x y z : Nat) : Nat := (x &&& y) ^^^ ((x ^^^ 4294967295) &&& z)

/-- The `Maj` function of FIPS 180-4. -/
def majF (x y z : Nat) : Nat := (x &&& y) ^^^ (x &&& z) ^^^ (y &&& z)

/-- `Σ₀` of FIPS 180-4. -/
def bigSigma0 (x : Nat) : Nat := rotr 2 x ^^^ rotr 13 x ^^^ rotr 22 x

/-- `Σ₁` of FIPS 180-4. -/
def bigSigma1 (x : Nat) : Nat := rotr 6 x ^^^ rotr 11 x ^^^ rotr 25 x

/-- `σ₀` of FIPS 180-4. -/
def smallSigma0 (x : Nat) : Nat := rotr 7 x ^^^ rotr 18 x ^^^ (x >>> 3)

/-- `σ₁` of FIPS 180-4. -/
def smallSigma1 (x : Nat) : Nat := rotr 17 x ^^^ rotr 19 x ^^^ (x >>> 10)

/-- The 64 SHA-256 round constants. -/
def K256 : List Nat :=
  [1116352408, 1899447441, 3049323471, 3921009573, 961987163,
   1508970993, 2453635748, 2870763221, 3624381080, 310598401,
   607225278, 1426881987, 1925078388, 2162078206, 2614888103,
   3248222580, 3835390401, 4022224774, 264347078, 604807628,
   770255983, 1249150122, 1555081692, 1996064986, 2554220882,
   2821834349, 2952996808, 3210313671, 3336571891, 3584528711,
   113926993, 338241895, 666307205, 773529912, 1294757372,
   1396182291, 1695183700, 1986661051, 2177026350, 2456956037,
   2730485921, 2820302411, 3259730800, 3345764771, 3516065817,
   3600352804, 4094571909, 275423344, 430227734, 506948616,
   659060556, 883997877, 958139571, 1322822218, 1537002063,
   1747873779, 1955562222, 2024104815, 2227730452, 2361852424,
   2428436474, 2756734187, 3204031479, 3329325298]

/-- The SHA-256 initial hash value. -/
def H256 : List Nat :=
  [1779033703, 3144134277, 1013904242, 2773480762, 1359893119,
   2600822924, 528734635, 1541459225]

/-- Message padding: append `0x80`, zero bytes up to 56 mod 64, then the
bit length as eight big-endian bytes. -/
def padMsg (msg : List Nat) : List Nat :=
  let len := msg.length
  let zeros := (119 - len % 64) % 64
  let bitLen := 8 * len
  msg ++ 128 :: List.replicate zeros 0 ++
    [(bitLen >>> 56) &&& 255, (bitLen >>> 48) &&& 255, (bitLen >>> 40) &&& 255,
     (bitLen >>> 32) &&& 255, (bitLen >>> 24) &&& 255, (bitLen >>> 16) &&& 255,
     (bitLen >>> 8) &&& 255, bitLen &&& 255]

/-- Pack a byte list (whose length is a multiple of 4) into big-endian
32-bit words. -/
def toWords : List Nat → List Nat
  | a :: b :: c :: d :: rest => (((a * 256 + b) * 256 + c) * 256 + d) :: toWords rest
  | _ => []

/-- Extend a 16-word block by `n` further words of the message schedule. -/
def extendW (w : List Nat) : Nat → List Nat
  | 0 => w
  | n + 1 =>
    let prev := extendW w n
    let i := 16 + n
    prev ++ [w32 (prev.getD (i - 16) 0 + smallSigma0 (prev.getD (i - 15) 0) +
                  prev.getD (i - 7) 0 + smallSigma1 (prev.getD (i - 2) 0))]

/-- One round of the SHA-256 compression loop on the working variables
`[a, b, c, d, e, f, g, h]`. -/
def roundStep (st : List Nat) (kw : Nat × Nat) : List Nat :=
  match st with
  | [a, b, c, d, e, f, g, h] =>
    let t1 := w32 (h + bigSigma1 e + chF e f g + kw.1 + kw.2)
    let t2 := w32 (bigSigma0 a + majF a b c)
    [w32 (t1 + t2), a, b, c, w32 (d + t1), e, f, g]
  | _ => st

/-- Compress one 16-word message block into the running hash value. -/
def compress (hs : List Nat) (block : List Nat) : List Nat :=
  let w := extendW block 48
  let st := (K256.zip w).foldl roundStep hs
  List.zipWith (fun x y => w32 (x + y)) hs st

/-- Split a word list into blocks of 16 words. -/
def chunks16 (ws : List Nat) : List (List Nat) :=
  if _h : ws.length = 0 then []
  else ws.take 16 :: chunks16 (ws.drop 16)
termination_by ws.length
decreasing_by simp only [List.length_drop]; omega

/-- The four big-endian bytes of a 32-bit word. -/
def wordBytes (w : Nat) : List Nat :=
  [(w >>> 24) &&& 255, (w >>> 16) &&& 255, (w >>> 8) &&& 255, w &&& 255]

/-- SHA-256 digest of a byte list: 32 bytes. -/
def sha256 (msg : List Nat) : List Nat :=
  ((chunks16 (toWords (padMsg msg))).foldl compress H256).flatMap wordBytes

/-! ## Hex rendering and UTF-8 bytes -/

/-- Lowercase hexadecimal digit for `n < 16`. -/
def hexDigit (n : Nat) : Char :=
  if n < 10 then Char.ofNat (48 + n) else Char.ofNat (87 + n)

/-- The sixteen lowercase hexadecimal digit characters. -/
def hexAlphabet : List Char := "0123456789abcdef".data

/-- Two lowercase hex characters per byte, as printed by Rust's `{:x}` on
a SHA-256 digest (each byte rendered `{:02x}`). -/
def hexChars : List Nat → List Char
  | [] => []
  | b :: bs => hexDigit (b / 16 % 16) :: hexDigit (b % 16) :: hexChars bs

/-- Hex string of a byte list. -/
def hexString (bs : List Nat) : String := String.mk (hexChars bs)

/-- UTF-8 encoding of one character, as a list of byte values. -/
def utf8Char (c : Char) : List Nat :=
  let n := c.toNat
  if n < 128 then [n]
  else if n < 2048 then [192 ||| (n >>> 6), 128 ||| (n &&& 63)]
  else if n < 65536 then
    [224 ||| (n >>> 12), 128 ||| ((n >>> 6) &&& 63), 128 ||| (n &&& 63)]
  else
    [240 ||| (n >>> 18), 128 ||| ((n >>> 12) &&& 63),
     128 ||| ((n >>> 6) &&& 63), 128 ||| (n &&& 63)]

/-- The UTF-8 bytes of a string — what `hasher.update(s)` consumes for a
Rust `&str`. -/
def strBytes (s : String) : List Nat := s.data.flatMap utf8Char

/-! ## The streaming hasher and `get_key` -/

/-- State of a streaming SHA-256 hasher: the bytes absorbed so far.  The
`sha2` crate's streaming interface hashes exactly the concatenation of
all `update` inputs. -/
def Sha256Hasher := List Nat

/-- `Sha256::new()`. -/
def Sha256Hasher.new : Sha256Hasher := []

/-- `hasher.update(s)` for a string argument. -/
def Sha256Hasher.update (h : Sha256Hasher) (s : String) : Sha256Hasher :=
  List.append h (strBytes s)

/-- `hasher.finalize()`: the digest of all absorbed bytes. -/
def Sha256Hasher.finalize (h : Sha256Hasher) : List Nat := sha256 h

/-- Embedding of `get_key` from `cache.rs`:

```rust
let mut hasher = Sha256::new();
hasher.update(sql);
hasher.update(command);
format!("{:x}.{}", hasher.finalize(), command)
``` -/
def get_key (sql command : String) : String :=
  let hasher := Sha256Hasher.new
  let hasher := hasher.update sql
  let hasher := hasher.update command
  hexString hasher.finalize ++ "." ++ command

/-- Spec-side key derivation, written from the specification's words: the
lowercase hex rendering of the 256-bit digest of sql's bytes immediately
followed by command's bytes (no separator), then a literal `.`, then the
raw command string. -/
def deriveKeySpec (sql command : String) : String :=
  hexString (sha256 (strBytes sql ++ strBytes command)) ++ "." ++ command

/-! ## The LRU cache model and `retrieve` -/

/-- Model of `lru::LruCache<String, Vec<u8>>`: entries ordered most
recently used first, plus the configured capacity (a `NonZeroUsize` in
the crate). -/
structure LruCache where
  cap : Nat
  entries : List (String × List Nat)

/-- `cache.get(&k)`: on a hit, return the value and move the entry to the
front (refresh recency); on a miss, return `none` and leave the cache
unchanged. -/
def LruCache.get (c : LruCache) (k : String) : Option (List Nat) × LruCache :=
  match c.entries.find? (fun e => e.1 == k) with
  | some e => (some e.2, ⟨c.cap, (k, e.2) :: c.entries.eraseP (fun e => e.1 == k)⟩)
  | none => (none, c)

/-- `cache.put(k, v)`: if the key is present, replace its value and move
it to the front; otherwise insert at the front, first evicting the least
recently used (last) entry when the cache is at capacity. -/
def LruCache.put (c : LruCache) (k : String) (v : List Nat) : LruCache :=
  match c.entries.find? (fun e => e.1 == k) with
  | some _ => ⟨c.cap, (k, v) :: c.entries.eraseP (fun e => e.1 == k)⟩
  | none =>
    ⟨c.cap, (k, v) :: (if c.entries.length == c.cap then c.entries.dropLast else c.entries)⟩

/-- `cache.peek(&k)`: the stored value for `k`, with no recency change.
Used to state what a cache maps a key to. -/
def LruCache.peek (c : LruCache) (k : String) : Option (List Nat) :=
  (c.entries.find? (fun e => e.1 == k)).map (fun e => e.2)

/-- Outcome of one `retrieve` call: the returned `Result`, the cache state
afterwards, and whether the compute closure `f` was invoked. -/
structure RetrieveResult where
  result : Except String (List Nat)
  store : LruCache
  invoked : Bool

/-- Embedding of `retrieve` from `cache.rs`.  The compute closure is
modelled by the value `f : Except String (List Nat)` it produces when
invoked; `invoked` records whether the code reaches `f().await`.

```rust
let key = get_key(sql, command);
if let Some(cached) = cache.lock().await.get(&key) {
    return Ok(cached.clone());
}
let result = f().await?;
if persist {
    cache.lock().await.put(key, result.clone());
}
Ok(result)
``` -/
def retrieve (cache : LruCache) (sql command : String) (persist : Bool)
    (f : Except String (List Nat)) : RetrieveResult :=
  let key := get_key sql command
  match cache.get key with
  | (some cached, cache') => ⟨Except.ok cached, cache', false⟩
  | (none, cache') =>
    match f with
    | Except.error e => ⟨Except.error e, cache', true⟩
    | Except.ok result =>
      if persist then ⟨Except.ok result, cache'.put key result, true⟩
      else ⟨Except.ok result, cache', true⟩

/-! ## Length of the digest and of its hex rendering -/

theorem roundStep_length (st : List Nat) (kw : Nat × Nat) :
    (roundStep st kw).length = st.length := by
  unfold roundStep
  split <;> simp_all

theorem foldl_roundStep_length (l : List (Nat × Nat)) :
    ∀ st : List Nat, (l.foldl roundStep st).length = st.length := by
  induction l with
  | nil => intro st; rfl
  | cons x xs ih => intro st; rw [List.foldl_cons, ih, roundStep_length]

theorem compress_length (hs block : List Nat) (h : hs.length = 8) :
    (compress hs block).length = 8 := by
  unfold compress
  rw [List.length_zipWith, foldl_roundStep_length, h, Nat.min_self]

theorem foldl_compress_length (blocks : List (List Nat)) :
    ∀ hs : List Nat, hs.length = 8 → (blocks.foldl compress hs).length = 8 := by
  induction blocks with
  | nil => intro hs h; exact h
  | cons b bs ih => intro hs h; rw [List.foldl_cons]; exact ih _ (compress_length _ _ h)

theorem flatMap_wordBytes_length (l : List Nat) :
    (l.flatMap wordBytes).length = 4 * l.length := by
  induction l with
  | nil => rfl
  | cons x xs ih => simp [List.flatMap_cons, ih, wordBytes]; omega

theorem sha256_length (msg : List Nat) : (sha256 msg).length = 32 := by
  unfold sha256
  rw [flatMap_wordBytes_length, foldl_compress_length _ _ (by rfl)]

theorem hexChars_length (bs : List Nat) : (hexChars bs).length = 2 * bs.length := by
  induction bs with
  | nil => rfl
  | cons b bs ih => simp [hexChars, ih]; omega

/-! ## Structure of the derived key -/

theorem get_key_data (sql command : String) :
    (get_key sql command).data =
      hexChars (sha256 (strBytes sql ++ strBytes command)) ++ '.' :: command.data := by
  simp only [get_key, Sha256Hasher.new, Sha256Hasher.update, Sha256Hasher.finalize,
    hexString, List.append_eq, List.nil_append, String.data_append, List.append_assoc,
    List.singleton_append]

theorem get_key_hex_length (sql command : String) :
    (hexChars (sha256 (strBytes sql ++ strBytes command))).length = 64 := by
  rw [hexChars_length, sha256_length]

/-- Keys derived for different commands are always different: the hex
digest prefix has fixed length 64, so equal keys force equal suffixes
`'.' :: command`. -/
theorem get_key_command_ne {sql1 command1 sql2 command2 : String}
    (h : command1 ≠ command2) : get_key sql1 command1 ≠ get_key sql2 command2 := by
  intro heq
  have hd := congrArg String.data heq
  rw [get_key_data, get_key_data] at hd
  have hlen : (hexChars (sha256 (strBytes sql1 ++ strBytes command1))).length =
      (hexChars (sha256 (strBytes sql2 ++ strBytes command2))).length := by
    rw [get_key_hex_length, get_key_hex_length]
  obtain ⟨-, h2⟩ := List.append_inj hd hlen
  apply h
  cases command1
  cases command2
  exact congrArg String.mk (by simpa using h2)

/-! ## Basic cache lemmas -/

theorem LruCache.get_of_find?_none (c : LruCache) (k : String)
    (h : c.entries.find? (fun e => e.1 == k) = none) : c.get k = (none, c) := by
  unfold LruCache.get
  rw [h]

theorem LruCache.get_of_find?_some (c : LruCache) (k : String) (e : String × List Nat)
    (h : c.entries.find? (fun e => e.1 == k) = some e) :
    c.get k = (some e.2, ⟨c.cap, (k, e.2) :: c.entries.eraseP (fun e => e.1 == k)⟩) := by
  unfold LruCache.get
  rw [h]

theorem LruCache.peek_eq_none_iff (c : LruCache) (k : String) :
    c.peek k = none ↔ c.entries.find? (fun e => e.1 == k) = none := by
  unfold LruCache.peek
  exact Option.map_eq_none'

theorem find?_cons_self (k : String) (v : List Nat) (rest : List (String × List Nat)) :
    List.find? (fun e => e.1 == k) ((k, v) :: rest) = some (k, v) :=
  List.find?_cons_of_pos rest (beq_self_eq_true k)

/-! ## Unfolding `retrieve` on each path -/

theorem retrieve_hit (cache : LruCache) (sql command : String) (persist : Bool)
    (f : Except String (List Nat)) (e : String × List Nat)
    (h : cache.entries.find? (fun x => x.1 == get_key sql command) = some e) :
    retrieve cache sql command persist f =
      ⟨Except.ok e.2,
       ⟨cache.cap, (get_key sql command, e.2) ::
          cache.entries.eraseP (fun x => x.1 == get_key sql command)⟩, false⟩ := by
  simp only [retrieve]
  rw [LruCache.get_of_find?_some cache _ e h]

theorem retrieve_miss_error (cache : LruCache) (sql command : String) (persist : Bool)
    (err : String)
    (h : cache.entries.find? (fun x => x.1 == get_key sql command) = none) :
    retrieve cache sql command persist (Except.error err) =
      ⟨Except.error err, cache, true⟩ := by
  simp only [retrieve]
  rw [LruCache.get_of_find?_none cache _ h]

theorem retrieve_miss_ok_persist (cache : LruCache) (sql command : String) (B : List Nat)
    (h : cache.entries.find? (fun x => x.1 == get_key sql command) = none) :
    retrieve cache sql command true (Except.ok B) =
      ⟨Except.ok B, cache.put (get_key sql command) B, true⟩ := by
  simp only [retrieve]
  rw [LruCache.get_of_find?_none cache _ h]
  simp

theorem retrieve_miss_ok_nopersist (cache : LruCache) (sql command : String) (B : List Nat)
    (h : cache.entries.find? (fun x => x.1 == get_key sql command) = none) :
    retrieve cache sql command false (Except.ok B) = ⟨Except.ok B, cache, true⟩ := by
  simp only [retrieve]
  rw [LruCache.get_of_find?_none cache _ h]
  simp

theorem put_of_find?_none (c : LruCache) (k : String) (v : List Nat)
    (h : c.entries.find? (fun e => e.1 == k) = none) :
    c.put k v =
      ⟨c.cap, (k, v) ::
        (if c.entries.length == c.cap then c.entries.dropLast else c.entries)⟩ := by
  unfold LruCache.put
  rw [h]

/-- The first match found by `find?` together with the rest after `eraseP`
is a permutation of the original list. -/
theorem perm_cons_eraseP_of_find? {α : Type} {p : α → Bool} {l : List α} {a : α}
    (h : l.find? p = some a) : List.Perm (a :: l.eraseP p) l := by
  induction l with
  | nil => simp at h
  | cons x xs ih =>
    by_cases hx : p x
    · rw [List.find?_cons_of_pos _ hx] at h
      injection h with h
      subst h
      rw [List.eraseP_cons_of_pos hx]
    · rw [List.find?_cons_of_neg _ hx] at h
      rw [List.eraseP_cons_of_neg hx]
      exact (List.Perm.swap x a _).trans ((ih h).cons x)

theorem hexDigit_mem (n : Nat) (h : n < 16) :
    hexDigit n ∈ hexAlphabet := by
  interval_cases n <;> decide

theorem hexChars_mem (bs : List Nat) :
    ∀ c ∈ hexChars bs, c ∈ hexAlphabet := by
  induction bs with
  | nil => simp [hexChars]
  | cons b bs ih =>
    intro c hc
    simp only [hexChars, List.mem_cons] at hc
    rcases hc with h | h | h
    · subst h; exact hexDigit_mem _ (by omega)
    · subst h; exact hexDigit_mem _ (by omega)
    · exact ih c h

/-! ## Claim theorems -/

/-- C1 — Hit short-circuit: for every store, if
`retrieve(store, sql, command, true, f)` succeeds returning bytes `B`,
then a later `retrieve` on the resulting store with the same `sql` and
`command` (any persist flag, any compute `g`) returns `Ok B` and never
invokes `g`. -/
theorem hit_short_circuit (cache : LruCache) (sql command : String) (p2 : Bool)
    (f g : Except String (List Nat)) (B : List Nat)
    (h : (retrieve cache sql command true f).result = Except.ok B) :
    (retrieve (retrieve cache sql command true f).store sql command p2 g).result
        = Except.ok B ∧
    (retrieve (retrieve cache sql command true f).store sql command p2 g).invoked
        = false := by
  rcases hfind : cache.entries.find? (fun x => x.1 == get_key sql command) with - | e
  · rcases f with err | b
    · rw [retrieve_miss_error _ _ _ _ _ hfind] at h
      simp at h
    · rw [retrieve_miss_ok_persist _ _ _ _ hfind] at h ⊢
      simp only [RetrieveResult.result] at h
      injection h with h
      subst h
      rw [put_of_find?_none _ _ _ hfind]
      rw [retrieve_hit _ _ _ _ _ _ (find?_cons_self _ _ _)]
      exact ⟨rfl, rfl⟩
  · rw [retrieve_hit _ _ _ _ _ _ hfind] at h ⊢
    simp only [RetrieveResult.result] at h
    injection h with h
    subst h
    rw [retrieve_hit _ _ _ _ _ _ (find?_cons_self _ _ _)]
    exact ⟨rfl, rfl⟩

/-- C1 witness at a concrete input: populate an empty store of capacity 1,
then hit it. -/
theorem hit_short_circuit_witness :
    (retrieve (retrieve ⟨1, []⟩ "SELECT 1" "exec" true (Except.ok [7])).store
        "SELECT 1" "exec" false (Except.error "boom")).result = Except.ok [7] ∧
    (retrieve (retrieve ⟨1, []⟩ "SELECT 1" "exec" true (Except.ok [7])).store
        "SELECT 1" "exec" false (Except.error "boom")).invoked = false :=
  hit_short_circuit ⟨1, []⟩ "SELECT 1" "exec" false (Except.ok [7])
    (Except.error "boom") [7] rfl

/-- C2 — Miss-and-populate: if the derived key is absent from the store,
`retrieve` with `persist = true` and a compute yielding `B` returns `Ok B`
and leaves the store mapping the key to `B`. -/
theorem miss_and_populate (cache : LruCache) (sql command : String) (B : List Nat)
    (habs : cache.peek (get_key sql command) = none) :
    (retrieve cache sql command true (Except.ok B)).result = Except.ok B ∧
    (retrieve cache sql command true (Except.ok B)).store.peek (get_key sql command)
      = some B := by
  have hfind := (LruCache.peek_eq_none_iff cache _).mp habs
  rw [retrieve_miss_ok_persist _ _ _ _ hfind]
  refine ⟨rfl, ?_⟩
  rw [put_of_find?_none _ _ _ hfind]
  unfold LruCache.peek
  rw [find?_cons_self]
  rfl

/-- C2 witness on the empty store. -/
theorem miss_and_populate_witness :
    (retrieve ⟨2, []⟩ "SELECT 2" "json" true (Except.ok [9])).result = Except.ok [9] ∧
    (retrieve ⟨2, []⟩ "SELECT 2" "json" true (Except.ok [9])).store.peek
        (get_key "SELECT 2" "json") = some [9] :=
  miss_and_populate ⟨2, []⟩ "SELECT 2" "json" [9] rfl

/-- C3 — Failure propagation and atomicity: on a miss, if the compute
fails with error `E`, `retrieve` returns exactly that error and the store
is left completely unchanged, for any persist flag. -/
theorem failure_propagation (cache : LruCache) (sql command : String) (persist : Bool)
    (err : String) (habs : cache.peek (get_key sql command) = none) :
    (retrieve cache sql command persist (Except.error err)).result = Except.error err ∧
    (retrieve cache sql command persist (Except.error err)).store = cache := by
  have hfind := (LruCache.peek_eq_none_iff cache _).mp habs
  rw [retrieve_miss_error _ _ _ _ _ hfind]
  exact ⟨rfl, rfl⟩

/-- C3 witness on the empty store. -/
theorem failure_propagation_witness :
    (retrieve ⟨1, []⟩ "SELECT 9" "exec" true (Except.error "boom")).result
        = Except.error "boom" ∧
    (retrieve ⟨1, []⟩ "SELECT 9" "exec" true (Except.error "boom")).store
        = (⟨1, []⟩ : LruCache) :=
  failure_propagation ⟨1, []⟩ "SELECT 9" "exec" true "boom" rfl

/-- C4 counterexample — the claim as stated quantifies over every store;
on a store that already contains the derived key, `retrieve` with
`persist = false` returns the cached bytes rather than `f`'s result, and
the key remains present. -/
theorem no_persist_counterexample :
    ¬ ((retrieve ⟨1, [(get_key "SELECT 3" "arrow", [1])]⟩ "SELECT 3" "arrow" false
          (Except.ok [2])).result = Except.ok [2] ∧
       (retrieve ⟨1, [(get_key "SELECT 3" "arrow", [1])]⟩ "SELECT 3" "arrow" false
          (Except.ok [2])).store.peek (get_key "SELECT 3" "arrow") = none) := by
  rw [retrieve_hit _ _ _ false (Except.ok [2]) (get_key "SELECT 3" "arrow", [1])
      (find?_cons_self _ _ _)]
  intro hcon
  simpa using hcon.1

/-- C4 (amended) — No-persist path: for every store in which the derived
key is absent, `retrieve(store, sql, command, false, f)` returns `f`'s
result, and afterwards the key is still absent from the store. -/
theorem no_persist_path (cache : LruCache) (sql command : String)
    (f : Except String (List Nat)) (habs : cache.peek (get_key sql command) = none) :
    (retrieve cache sql command false f).result = f ∧
    (retrieve cache sql command false f).store.peek (get_key sql command) = none := by
  have hfind := (LruCache.peek_eq_none_iff cache _).mp habs
  rcases f with err | b
  · rw [retrieve_miss_error _ _ _ _ _ hfind]
    exact ⟨rfl, habs⟩
  · rw [retrieve_miss_ok_nopersist _ _ _ _ hfind]
    exact ⟨rfl, habs⟩

/-- C4 witness on the empty store. -/
theorem no_persist_path_witness :
    (retrieve ⟨1, []⟩ "SELECT 3" "arrow" false (Except.ok [4])).result = Except.ok [4] ∧
    (retrieve ⟨1, []⟩ "SELECT 3" "arrow" false (Except.ok [4])).store.peek
        (get_key "SELECT 3" "arrow") = none :=
  no_persist_path ⟨1, []⟩ "SELECT 3" "arrow" (Except.ok [4]) rfl

/-- C5 — Key derivation format: `get_key` equals the lowercase hex
rendering of the 256-bit (32-byte) digest of sql's bytes immediately
followed by command's bytes (no separator), then a literal `.`, then the
raw command string; every digest character is a lowercase hex digit. -/
theorem key_derivation_format (sql command : String) :
    get_key sql command = deriveKeySpec sql command ∧
    (sha256 (strBytes sql ++ strBytes command)).length = 32 ∧
    ∀ ch ∈ hexChars (sha256 (strBytes sql ++ strBytes command)),
      ch ∈ hexAlphabet :=
  ⟨rfl, sha256_length _, hexChars_mem _⟩

/-- C5 witness at a concrete input. -/
theorem key_derivation_format_witness :
    get_key "SELECT 2" "json" = deriveKeySpec "SELECT 2" "json" :=
  (key_derivation_format "SELECT 2" "json").1

/-- C8 — Determinism of key derivation: two calls of `get_key` with
identical inputs return identical keys.  (`get_key` is a total Lean
function with no effects, so purity and totality are intrinsic to the
embedding.) -/
theorem derive_key_deterministic (sql1 command1 sql2 command2 : String)
    (hs : sql1 = sql2) (hc : command1 = command2) :
    get_key sql1 command1 = get_key sql2 command2 := by
  rw [hs, hc]

/-- C8 witness at a concrete input. -/
theorem derive_key_deterministic_witness :
    get_key "SELECT 1" "exec" = get_key "SELECT 1" "exec" :=
  derive_key_deterministic "SELECT 1" "exec" "SELECT 1" "exec" rfl rfl

/-- C9 — Unconditional key separation by command: different commands give
different keys, with certainty, because the hex digest prefix has fixed
length 64; the characters after position 64 are exactly `'.'` followed by
the command. -/
theorem key_separation_by_command (sql1 command1 sql2 command2 : String)
    (h : command1 ≠ command2) :
    get_key sql1 command1 ≠ get_key sql2 command2 ∧
    (get_key sql1 command1).data.drop 64 = '.' :: command1.data := by
  refine ⟨get_key_command_ne h, ?_⟩
  rw [get_key_data, ← get_key_hex_length sql1 command1, List.drop_left]

/-- C9 witness at concrete commands. -/
theorem key_separation_by_command_witness :
    get_key "SELECT 1" "exec" ≠ get_key "SELECT 1" "json" ∧
    (get_key "SELECT 1" "exec").data.drop 64 = '.' :: ("exec" : String).data :=
  key_separation_by_command "SELECT 1" "exec" "SELECT 1" "json" (by decide)

/-- C6 — Eviction order: on a store at capacity whose keys are distinct
and whose least-recently-used entry has key `get_key sql0 command0`, a
persisted miss for a new key evicts exactly that LRU entry: the new store
is the new entry followed by all previous entries except the last, and a
subsequent `retrieve` for the evicted key misses (invokes its compute). -/
theorem lru_eviction (cache : LruCache) (sql0 command0 sql1 command1 : String)
    (v0 B : List Nat) (p : Bool) (g : Except String (List Nat))
    (hnodup : (cache.entries.map Prod.fst).Nodup)
    (hfull : cache.entries.length = cache.cap)
    (hlast : cache.entries.getLast? = some (get_key sql0 command0, v0))
    (hmiss : cache.peek (get_key sql1 command1) = none) :
    (retrieve cache sql1 command1 true (Except.ok B)).store.entries
      = (get_key sql1 command1, B) :: cache.entries.dropLast ∧
    (retrieve (retrieve cache sql1 command1 true (Except.ok B)).store
        sql0 command0 p g).invoked = true := by
  have hfind := (LruCache.peek_eq_none_iff cache _).mp hmiss
  have hbeq : (cache.entries.length == cache.cap) = true := by simp [hfull]
  have hstore : (retrieve cache sql1 command1 true (Except.ok B)).store
      = ⟨cache.cap, (get_key sql1 command1, B) :: cache.entries.dropLast⟩ := by
    rw [retrieve_miss_ok_persist _ _ _ _ hfind, put_of_find?_none _ _ _ hfind]
    simp [hbeq]
  refine ⟨by rw [hstore], ?_⟩
  have hk0mem : (get_key sql0 command0, v0) ∈ cache.entries :=
    List.mem_of_mem_getLast? hlast
  have hne : (get_key sql1 command1 == get_key sql0 command0) = false := by
    have h1 := List.find?_eq_none.mp hfind _ hk0mem
    simp only [Bool.not_eq_true] at h1
    refine beq_eq_false_iff_ne.mpr fun he => ?_
    rw [← he] at h1
    simp at h1
  have hnil : cache.entries ≠ [] := by
    intro hx
    rw [hx] at hlast
    simp at hlast
  have hsplit := List.dropLast_append_getLast hnil
  have hlast' : cache.entries.getLast hnil = (get_key sql0 command0, v0) := by
    have h2 := List.getLast?_eq_getLast cache.entries hnil
    rw [hlast] at h2
    exact (Option.some.inj h2).symm
  have hnotin : ∀ e ∈ cache.entries.dropLast,
      (e.1 == get_key sql0 command0) = false := by
    intro e he
    have hmap : cache.entries.map Prod.fst =
        cache.entries.dropLast.map Prod.fst ++ [get_key sql0 command0] := by
      conv_lhs => rw [← hsplit]
      rw [List.map_append, hlast']
      rfl
    rw [hmap] at hnodup
    rcases List.nodup_append.mp hnodup with ⟨-, -, hdisj⟩
    refine beq_eq_false_iff_ne.mpr fun hx => ?_
    exact hdisj (hx ▸ List.mem_map_of_mem Prod.fst he) (by simp)
  have hfind2 : ((get_key sql1 command1, B) :: cache.entries.dropLast).find?
      (fun x => x.1 == get_key sql0 command0) = none := by
    rw [List.find?_cons_of_neg _ (by simp [hne])]
    exact List.find?_eq_none.mpr fun e he => by simp [hnotin e he]
  rw [hstore]
  rcases g with err | b2
  · rw [retrieve_miss_error _ _ _ _ _ hfind2]
  · cases p
    · rw [retrieve_miss_ok_nopersist _ _ _ _ hfind2]
    · rw [retrieve_miss_ok_persist _ _ _ _ hfind2]

/-- C6 witness: a capacity-2 store holding keys for commands `"b"` (most
recent) and `"a"` (least recent); a persisted miss for command `"c"`
evicts the `"a"` entry, and a retrieve for it then invokes its compute. -/
theorem lru_eviction_witness :
    (retrieve ⟨2, [(get_key "q" "b", [2]), (get_key "q" "a", [1])]⟩ "q" "c" true
        (Except.ok [3])).store.entries
      = (get_key "q" "c", [3]) ::
          ([(get_key "q" "b", [2]), (get_key "q" "a", [1])] :
            List (String × List Nat)).dropLast ∧
    (retrieve (retrieve ⟨2, [(get_key "q" "b", [2]), (get_key "q" "a", [1])]⟩ "q" "c"
        true (Except.ok [3])).store "q" "a" false (Except.error "e")).invoked = true :=
  lru_eviction ⟨2, [(get_key "q" "b", [2]), (get_key "q" "a", [1])]⟩ "q" "a" "q" "c"
    [1] [3] false (Except.error "e")
    (by
      simp only [List.map_cons, List.map_nil, List.nodup_cons, List.mem_singleton,
        List.not_mem_nil, not_false_iff, List.nodup_nil, and_true]
      exact get_key_command_ne (by decide))
    rfl rfl
    (by
      unfold LruCache.peek
      have h1 : (get_key "q" "b" == get_key "q" "c") = false :=
        beq_eq_false_iff_ne.mpr (get_key_command_ne (by decide))
      have h2 : (get_key "q" "a" == get_key "q" "c") = false :=
        beq_eq_false_iff_ne.mpr (get_key_command_ne (by decide))
      rw [List.find?_cons_of_neg _ (by simp [h1]), List.find?_cons_of_neg _ (by simp [h2])]
      rfl)

/-- C7 — Capacity invariant: if a store's size is at most its (positive)
capacity, then after any `retrieve` — any inputs, any persist flag, any
compute outcome — its size still does not exceed its capacity, which is
unchanged. -/
theorem capacity_invariant (cache : LruCache) (sql command : String) (persist : Bool)
    (f : Except String (List Nat)) (hle : cache.entries.length ≤ cache.cap)
    (hpos : 0 < cache.cap) :
    (retrieve cache sql command persist f).store.entries.length
      ≤ (retrieve cache sql command persist f).store.cap ∧
    (retrieve cache sql command persist f).store.cap = cache.cap := by
  rcases hfind : cache.entries.find? (fun x => x.1 == get_key sql command) with - | e
  · rcases f with err | b
    · rw [retrieve_miss_error _ _ _ _ _ hfind]
      exact ⟨hle, rfl⟩
    · cases persist
      · rw [retrieve_miss_ok_nopersist _ _ _ _ hfind]
        exact ⟨hle, rfl⟩
      · rw [retrieve_miss_ok_persist _ _ _ _ hfind, put_of_find?_none _ _ _ hfind]
        refine ⟨?_, rfl⟩
        by_cases hx : cache.entries.length = cache.cap
        · have hbeq : (cache.entries.length == cache.cap) = true := by simp [hx]
          simp only [hbeq, if_true, List.length_cons, List.length_dropLast]
          omega
        · have hbeq : (cache.entries.length == cache.cap) = false := by simp [hx]
          simp only [hbeq, Bool.false_eq_true, if_false, List.length_cons]
          omega
  · rw [retrieve_hit _ _ _ _ _ _ hfind]
    refine ⟨?_, rfl⟩
    simp only [List.length_cons]
    have hmem := List.mem_of_find?_eq_some hfind
    have hp := List.find?_some hfind
    rw [List.length_eraseP_of_mem hmem hp]
    have hlen : 0 < cache.entries.length := List.length_pos_of_mem hmem
    omega

/-- C7 witness: a persisted miss on the empty store of capacity 1. -/
theorem capacity_invariant_witness :
    (retrieve ⟨1, []⟩ "SELECT 5" "exec" true (Except.ok [1])).store.entries.length
      ≤ (retrieve ⟨1, []⟩ "SELECT 5" "exec" true (Except.ok [1])).store.cap ∧
    (retrieve ⟨1, []⟩ "SELECT 5" "exec" true (Except.ok [1])).store.cap = 1 :=
  capacity_invariant ⟨1, []⟩ "SELECT 5" "exec" true (Except.ok [1])
    (by decide) (by decide)

/-- C10 — Frame of store mutation: `retrieve` changes the stored
key-to-value contents only on the path miss + successful compute +
`persist = true`, and then only by inserting the one derived key (with
LRU eviction exactly when the store is at capacity).  On a hit the entry
multiset is unchanged (only recency is refreshed); on compute failure or
with `persist = false` the store is exactly unchanged. -/
theorem retrieve_frame (cache : LruCache) (sql command : String)
    (f : Except String (List Nat)) :
    (∀ persist v, cache.peek (get_key sql command) = some v →
        ((retrieve cache sql command persist f).store.entries).Perm cache.entries) ∧
    (∀ persist err, cache.peek (get_key sql command) = none →
        (retrieve cache sql command persist (Except.error err)).store = cache) ∧
    (cache.peek (get_key sql command) = none →
        (retrieve cache sql command false f).store = cache) ∧
    (∀ B, cache.peek (get_key sql command) = none →
        (retrieve cache sql command true (Except.ok B)).store.entries
          = (get_key sql command, B) ::
            (if cache.entries.length == cache.cap then cache.entries.dropLast
             else cache.entries)) := by
  refine ⟨?_, ?_, ?_, ?_⟩
  · intro persist v hv
    unfold LruCache.peek at hv
    rcases Option.map_eq_some'.mp hv with ⟨e, hfind, -⟩
    rw [retrieve_hit _ _ _ _ _ _ hfind]
    have hp := List.find?_some hfind
    have he1 : e.1 = get_key sql command := eq_of_beq hp
    have heq : (get_key sql command, e.2) = e := by rw [← he1]
    rw [heq]
    exact perm_cons_eraseP_of_find? hfind
  · intro persist err habs
    have hfind := (LruCache.peek_eq_none_iff cache _).mp habs
    rw [retrieve_miss_error _ _ _ _ _ hfind]
  · intro habs
    have hfind := (LruCache.peek_eq_none_iff cache _).mp habs
    rcases f with err | b
    · rw [retrieve_miss_error _ _ _ _ _ hfind]
    · rw [retrieve_miss_ok_nopersist _ _ _ _ hfind]
  · intro B habs
    have hfind := (LruCache.peek_eq_none_iff cache _).mp habs
    rw [retrieve_miss_ok_persist _ _ _ _ hfind, put_of_find?_none _ _ _ hfind]

/-- C10 witness: a hit permutes nothing away, and a no-persist miss
leaves the store untouched, at concrete inputs. -/
theorem retrieve_frame_witness :
    ((retrieve ⟨2, [(get_key "SELECT 4" "exec", [5])]⟩ "SELECT 4" "exec" false
        (Except.ok [9])).store.entries).Perm [(get_key "SELECT 4" "exec", [5])] ∧
    (retrieve ⟨2, []⟩ "SELECT 4" "exec" false (Except.ok [9])).store
      = (⟨2, []⟩ : LruCache) :=
  ⟨(retrieve_frame ⟨2, [(get_key "SELECT 4" "exec", [5])]⟩ "SELECT 4" "exec"
      (Except.ok [9])).1 false [5]
      (by unfold LruCache.peek; rw [find?_cons_self]; rfl),
   (retrieve_frame ⟨2, []⟩ "SELECT 4" "exec" (Except.ok [9])).2.2.1 rfl⟩
